import Mathlib

/-!
A shallow embedding of the core of the lxd container daemon: the migration
descriptor translator (`storage_migration.go`), the instance lifecycle
supervisor (container restart/shutdown/ephemeral-watch/snapshot-cleanup
handlers) and the exec-session channel barrier, together with theorems
checking the specification's claims against these definitions.
-/

namespace Lxd

/-- The snapshot name delimiter, `shared.SnapshotDelimiter`. Modelled from the
spec: the defining constant lives in the `shared` package, outside the
provided sources; the spec describes it as a reserved token separating a
parent instance name from a snapshot name. No theorem below depends on its
concrete value. -/
def SnapshotDelimiter : String := "/"

/-- A Go `map[string]α` modelled as an association list with replace-on-insert
semantics (the key order of a built map never matters to the theorems:
access goes through `mapGet`). -/
def mapSet {α : Type} : List (String × α) → String → α → List (String × α)
  | [], k, v => [(k, v)]
  | p :: rest, k, v => if p.1 == k then (k, v) :: rest else p :: mapSet rest k v

/-- Lookup in the association-list model of a Go map. -/
def mapGet {α : Type} (m : List (String × α)) (k : String) : Option α :=
  (m.find? (fun p => p.1 == k)).map (fun p => p.2)

/-- Build a Go map by inserting a list of key/value pairs left to right,
mirroring a `for … range` loop of map assignments. -/
def goMapOf {α : Type} (l : List (String × α)) : List (String × α) :=
  l.foldl (fun m e => mapSet m e.1 e.2) []

/-- A Go `time.Time` restricted to what the translator produces: either the
zero value (unset) or `time.Unix(sec, 0)`.  The two are distinct values in Go
(the zero `time.Time` is not the Unix epoch), hence distinct constructors. -/
inductive Timestamp where
  | unset : Timestamp
  | fromUnix : Int → Timestamp
deriving DecidableEq

/-- The wire-format migration descriptor `migration.Snapshot`, keeping the
fields `snapshotProtobufToInstanceArgs` reads.  Devices are a list of
(name, properties) entries; timestamps are integer epoch seconds. -/
structure Snapshot where
  name : String
  localConfig : List (String × String)
  localDevices : List (String × List (String × String))
  architecture : Int
  profiles : List String
  ephemeral : Bool
  stateful : Bool
  creationDate : Int
  lastUsedDate : Int
deriving DecidableEq

/-- `instancetype.Type`: only containers concern this core. -/
inductive InstanceType where
  | container : InstanceType
  | virtualMachine : InstanceType
deriving DecidableEq

/-- The instance-creation record `db.InstanceArgs`, restricted to the fields
the translator writes.  Config and device maps use the Go-map model above. -/
structure InstanceArgs where
  architecture : Int
  config : List (String × String)
  typ : InstanceType
  snapshot : Bool
  devices : List (String × List (String × String))
  ephemeral : Bool
  name : String
  profiles : List String
  stateful : Bool
  project : String
  creationDate : Timestamp
  lastUsedDate : Timestamp
deriving DecidableEq

/-- `snapshotProtobufToInstanceArgs` from `storage_migration.go`: builds the
config map from the descriptor's local config entries, the device map from
its local device entries, concatenates parent name, delimiter and snapshot
name, and converts the integer timestamps, leaving them unset when zero. -/
def snapshotProtobufToInstanceArgs (project containerName : String)
    (snap : Snapshot) : InstanceArgs :=
  let config := goMapOf snap.localConfig
  let devices := goMapOf (snap.localDevices.map (fun ent => (ent.1, goMapOf ent.2)))
  let name := containerName ++ SnapshotDelimiter ++ snap.name
  { architecture := snap.architecture
    config := config
    typ := .container
    snapshot := true
    devices := devices
    ephemeral := snap.ephemeral
    name := name
    profiles := snap.profiles
    stateful := snap.stateful
    project := project
    creationDate :=
      if snap.creationDate ≠ 0 then .fromUnix snap.creationDate else .unset
    lastUsedDate :=
      if snap.lastUsedDate ≠ 0 then .fromUnix snap.lastUsedDate else .unset }

theorem mapGet_mapSet_self {α : Type} (m : List (String × α)) (k : String) (v : α) :
    mapGet (mapSet m k v) k = some v := by
  induction m with
  | nil => simp [mapSet, mapGet]
  | cons p rest ih =>
    by_cases h : p.1 == k
    · simp [mapSet, h, mapGet]
    · simpa [mapSet, h, mapGet] using ih

theorem mapGet_mapSet_ne {α : Type} (m : List (String × α)) (k k' : String) (v : α)
    (h : k' ≠ k) : mapGet (mapSet m k' v) k = mapGet m k := by
  induction m with
  | nil => simp [mapSet, mapGet, h]
  | cons p rest ih =>
    by_cases hp : p.1 == k'
    · have hpk : (p.1 == k) = false := by
        have : p.1 = k' := by simpa using hp
        simp [this, h]
      simp [mapSet, hp, mapGet, hpk, beq_iff_eq, h]
    · by_cases hk : p.1 == k
      · simp [mapSet, hp, mapGet, hk]
      · simpa [mapSet, hp, mapGet, hk] using ih

theorem foldl_mapSet_lookup {α : Type} (l : List (String × α)) :
    ∀ (m : List (String × α)) (k : String) (v : α),
      (l.map Prod.fst).Nodup →
      (mapGet (l.foldl (fun m e => mapSet m e.1 e.2) m) k = some v ↔
        ((k, v) ∈ l ∨ (k ∉ l.map Prod.fst ∧ mapGet m k = some v))) := by
  induction l with
  | nil => intro m k v _; simp
  | cons e rest ih =>
    intro m k v hnd
    rw [List.map_cons, List.nodup_cons] at hnd
    obtain ⟨he, hnd'⟩ := hnd
    rw [List.foldl_cons]
    rw [ih (mapSet m e.1 e.2) k v hnd']
    by_cases hk : k = e.1
    · subst hk
      have hmem : ∀ v' : α, (e.1, v') ∉ rest := by
        intro v' hv'
        exact he (List.mem_map.mpr ⟨(e.1, v'), hv', rfl⟩)
      constructor
      · rintro (hin | ⟨hnin, hget⟩)
        · exact absurd hin (hmem v)
        · rw [mapGet_mapSet_self] at hget
          left
          have hv : e.2 = v := by simpa using hget
          rw [← hv, Prod.mk.eta]
          exact List.mem_cons_self _ _
      · rintro (hin | ⟨hnin, _⟩)
        · rcases List.mem_cons.mp hin with h1 | h1
          · right
            refine ⟨he, ?_⟩
            rw [mapGet_mapSet_self]
            have hv : v = e.2 := congrArg Prod.snd h1
            rw [hv]
          · exact absurd h1 (hmem v)
        · exact absurd (by exact List.mem_cons_self e.1 (rest.map Prod.fst) : e.1 ∈ (e :: rest).map Prod.fst) hnin
    · rw [mapGet_mapSet_ne m k e.1 e.2 (fun h => hk h.symm)]
      constructor
      · rintro (hin | ⟨hnin, hget⟩)
        · exact Or.inl (List.mem_cons_of_mem _ hin)
        · refine Or.inr ⟨?_, hget⟩
          simp only [List.map_cons, List.mem_cons]
          rintro (h1 | h1)
          · exact hk h1
          · exact hnin h1
      · rintro (hin | ⟨hnin, hget⟩)
        · rcases List.mem_cons.mp hin with h1 | h1
          · exact absurd (congrArg Prod.fst h1) hk
          · exact Or.inl h1
        · refine Or.inr ⟨?_, hget⟩
          intro hc
          exact hnin (by simp only [List.map_cons, List.mem_cons]; exact Or.inr hc)

theorem goMapOf_lookup {α : Type} (l : List (String × α)) (k : String) (v : α)
    (hnd : (l.map Prod.fst).Nodup) :
    mapGet (goMapOf l) k = some v ↔ (k, v) ∈ l := by
  rw [goMapOf, foldl_mapSet_lookup l [] k v hnd]
  simp [mapGet]

/-- Example descriptor used by the C1 witness. -/
def snapC1 : Snapshot :=
  { name := "daily", localConfig := [], localDevices := [],
    architecture := 2, profiles := ["default"], ephemeral := false,
    stateful := false, creationDate := 1700000000, lastUsedDate := 0 }

/-- C1: the translator leaves the creation timestamp of the produced instance
record unset exactly when the descriptor's creation-date field is 0, and
likewise for the last-used timestamp; any non-zero value v becomes the
timestamp for epoch second v. -/
theorem snapshotProtobufToInstanceArgs_timestamps (project containerName : String)
    (snap : Snapshot) :
    ((snapshotProtobufToInstanceArgs project containerName snap).creationDate
        = Timestamp.unset ↔ snap.creationDate = 0)
    ∧ (snap.creationDate ≠ 0 →
        (snapshotProtobufToInstanceArgs project containerName snap).creationDate
          = Timestamp.fromUnix snap.creationDate)
    ∧ ((snapshotProtobufToInstanceArgs project containerName snap).lastUsedDate
        = Timestamp.unset ↔ snap.lastUsedDate = 0)
    ∧ (snap.lastUsedDate ≠ 0 →
        (snapshotProtobufToInstanceArgs project containerName snap).lastUsedDate
          = Timestamp.fromUnix snap.lastUsedDate) := by
  unfold snapshotProtobufToInstanceArgs
  by_cases h1 : snap.creationDate = 0 <;> by_cases h2 : snap.lastUsedDate = 0 <;>
    simp [h1, h2]

/-- Witness for C1 at a concrete descriptor: creation date 1700000000 becomes
that epoch second, last-used date 0 stays unset. -/
theorem snapshotProtobufToInstanceArgs_timestamps_witness :
    (snapshotProtobufToInstanceArgs "default" "web1" snapC1).creationDate
        = Timestamp.fromUnix 1700000000
    ∧ (snapshotProtobufToInstanceArgs "default" "web1" snapC1).lastUsedDate
        = Timestamp.unset :=
  ⟨(snapshotProtobufToInstanceArgs_timestamps "default" "web1" snapC1).2.1
      (by decide),
    ((snapshotProtobufToInstanceArgs_timestamps "default" "web1" snapC1).2.2.1).mpr
      (by decide)⟩

/-- Example descriptor used by the C2 witness. -/
def snapC2 : Snapshot :=
  { name := "daily",
    localConfig := [("limits.cpu", "2"), ("volatile.base_image", "abc")],
    localDevices := [("root", [("path", "/"), ("pool", "default")])],
    architecture := 2, profiles := ["default"], ephemeral := false,
    stateful := false, creationDate := 0, lastUsedDate := 0 }

/-- C2: the produced instance record's name is exactly the parent container
name, the snapshot delimiter and the snapshot's own name concatenated, and the
record's configuration and device mappings copy the descriptor's local config
and device entries key-for-key and value-for-value (descriptor keys assumed
distinct, as in a Go map's iteration). -/
theorem snapshotProtobufToInstanceArgs_name_config_devices
    (project containerName : String) (snap : Snapshot)
    (hc : (snap.localConfig.map Prod.fst).Nodup)
    (hd : (snap.localDevices.map Prod.fst).Nodup)
    (hp : ∀ ent ∈ snap.localDevices, (ent.2.map Prod.fst).Nodup) :
    (snapshotProtobufToInstanceArgs project containerName snap).name
        = containerName ++ SnapshotDelimiter ++ snap.name
    ∧ (∀ k v,
        mapGet (snapshotProtobufToInstanceArgs project containerName snap).config k
          = some v ↔ (k, v) ∈ snap.localConfig)
    ∧ (∀ dn props, (dn, props) ∈ snap.localDevices →
        mapGet (snapshotProtobufToInstanceArgs project containerName snap).devices dn
          = some (goMapOf props)
        ∧ (∀ pk pv, mapGet (goMapOf props) pk = some pv ↔ (pk, pv) ∈ props)) := by
  refine ⟨rfl, ?_, ?_⟩
  · intro k v
    exact goMapOf_lookup snap.localConfig k v hc
  · intro dn props hmem
    have hnd2 :
        ((snap.localDevices.map (fun ent => (ent.1, goMapOf ent.2))).map Prod.fst).Nodup := by
      rw [List.map_map]
      simpa using hd
    refine ⟨?_, ?_⟩
    · exact (goMapOf_lookup _ dn (goMapOf props) hnd2).mpr
        (List.mem_map.mpr ⟨(dn, props), hmem, rfl⟩)
    · intro pk pv
      exact goMapOf_lookup props pk pv (hp (dn, props) hmem)

/-- Witness for C2 at a concrete descriptor: the produced name, a config key
and a device with its properties, all as the descriptor lists them. -/
theorem snapshotProtobufToInstanceArgs_name_config_devices_witness :
    (snapshotProtobufToInstanceArgs "default" "web1" snapC2).name
        = "web1" ++ SnapshotDelimiter ++ "daily"
    ∧ mapGet (snapshotProtobufToInstanceArgs "default" "web1" snapC2).config
        "limits.cpu" = some "2"
    ∧ mapGet (snapshotProtobufToInstanceArgs "default" "web1" snapC2).devices
        "root" = some (goMapOf [("path", "/"), ("pool", "default")]) :=
  ⟨(snapshotProtobufToInstanceArgs_name_config_devices "default" "web1" snapC2
      (by decide) (by decide) (by decide)).1,
    ((snapshotProtobufToInstanceArgs_name_config_devices "default" "web1" snapC2
      (by decide) (by decide) (by decide)).2.1 "limits.cpu" "2").mpr (by decide),
    ((snapshotProtobufToInstanceArgs_name_config_devices "default" "web1" snapC2
      (by decide) (by decide) (by decide)).2.2 "root"
      [("path", "/"), ("pool", "default")] (by decide)).1⟩

/-- `cTypeRegular`: the row type of a primary container in the metadata
store. -/
def cTypeRegular : Nat := 0

/-- `cTypeSnapshot`: the row type of a snapshot in the metadata store. -/
def cTypeSnapshot : Nat := 1

/-- One row of the `containers` table, keeping the columns the lifecycle
handlers read or write. -/
structure DBRow where
  id : Nat
  name : String
  typ : Nat
  powerState : Nat
deriving DecidableEq

/-- The `containers` table. -/
abbrev DB := List DBRow

/-- Observable actions of the lifecycle handlers, in program order.  Calls
into the container runtime (`Start`, `Shutdown`, `Stop`) and into the storage
backend are external per the spec, so they appear as events; database writes
additionally update the `DB` value threaded through. -/
inductive Event where
  | clearAllFlags
  | startAttempt (name : String) (ok : Bool)
  | setFlag (name : String) (v : Nat)
  | gracefulShutdown (name : String) (timeoutSecs : Nat) (stoppedInTime : Bool)
  | forceStop (name : String)
  | btrfsDelete (sname : String)
  | removeAll (sname : String)
  | rowDelete (id : Nat)
deriving DecidableEq

/-- Errors a lifecycle handler returns to its caller. -/
inductive LxdErr where
  | handleErr (name : String)
deriving DecidableEq

/-- The `SELECT name FROM containers WHERE type=? AND power_state=1` query of
`containersRestart`. -/
def flaggedNames (db : DB) : List String :=
  (db.filter (fun r => r.typ == cTypeRegular && r.powerState == 1)).map
    (fun r => r.name)

/-- The `UPDATE containers SET power_state=0` statement of
`containersRestart` (no WHERE clause: every row is cleared). -/
def clearAll (db : DB) : DB :=
  db.map (fun r => { r with powerState := 0 })

/-- The restart loop of `containersRestart`: for each previously-running
name, `newLxdContainer` (modelled by `handleOk`) either fails — the loop
returns that error at once — or yields a handle whose `Start()` result
(modelled by `startOk`) is discarded. -/
def restartLoop (handleOk startOk : String → Bool) :
    List String → List Event × Except LxdErr Unit
  | [] => ([], .ok ())
  | n :: rest =>
    if handleOk n then
      let res := restartLoop handleOk startOk rest
      (.startAttempt n (startOk n) :: res.1, res.2)
    else ([], .error (.handleErr n))

/-- `containersRestart`: read the names whose persisted power state is 1,
clear the flag for every row, then attempt to start each previously-running
container.  Returns the final table, the event trace and the result.
`Start` is an external runtime call (spec §6) whose body is not in the
sources; following the spec, it does not touch the power-state column. -/
def containersRestart (handleOk startOk : String → Bool) (db : DB) :
    DB × List Event × Except LxdErr Unit :=
  let flagged := flaggedNames db
  let db1 := clearAll db
  let res := restartLoop handleOk startOk flagged
  (db1, .clearAllFlags :: res.1, res.2)

/-- The list of regular container names, `d.ListRegularContainers()`. -/
def regularNames (db : DB) : List String :=
  (db.filter (fun r => r.typ == cTypeRegular)).map (fun r => r.name)

/-- The `UPDATE containers SET power_state=? WHERE name=?` statement of
`containersShutdown`. -/
def setPower (db : DB) (n : String) (v : Nat) : DB :=
  db.map (fun r => if r.name == n then { r with powerState := v } else r)

/-- The shutdown loop of `containersShutdown`.  For each regular container:
construct a handle (`handleOk`; a failure is returned at once), and if the
container is running, persist power_state=1, then request a graceful
shutdown with a 30-second deadline and afterwards issue a stop.  In the
source the shutdown/stop pair runs in a goroutine, but `wg.Wait()` sits
inside the per-container loop, so the goroutine finishes before the next
iteration begins: the loop is sequential and its event order is exactly the
one modelled here.  `gracefulOk n` records whether the container stopped
within the graceful deadline; the code ignores that outcome and calls
`Stop()` regardless. -/
def shutdownLoop (handleOk running gracefulOk : String → Bool) :
    List String → DB → DB × List Event × Except LxdErr Unit
  | [], db => (db, [], .ok ())
  | n :: rest, db =>
    if handleOk n then
      if running n then
        let db1 := setPower db n 1
        let res := shutdownLoop handleOk running gracefulOk rest db1
        (res.1,
          .setFlag n 1 :: .gracefulShutdown n 30 (gracefulOk n) ::
            .forceStop n :: res.2.1,
          res.2.2)
      else shutdownLoop handleOk running gracefulOk rest db
    else (db, [], .error (.handleErr n))

/-- `containersShutdown`: walk every regular container as described at
`shutdownLoop`. -/
def containersShutdown (handleOk running gracefulOk : String → Bool) (db : DB) :
    DB × List Event × Except LxdErr Unit :=
  shutdownLoop handleOk running gracefulOk (regularNames db) db

/-- Observable actions of the ephemeral watcher. -/
inductive WatchEvent where
  | waitStopped
  | waitRunningBrief
  | existenceCheck (present : Bool)
  | deleteInstance
deriving DecidableEq

/-- `containerWatchEphemeral`'s goroutine body: obtain the runtime handle
(`handleOk`; on failure return silently), block until the container is
stopped, wait up to one second for it to be running again (ruling out a
restart race), block until stopped again, then look the container up in the
metadata store (`present`) and delete it only if the row is still there. -/
def containerWatchEphemeral (handleOk present : Bool) : List WatchEvent :=
  if handleOk then
    [.waitStopped, .waitRunningBrief, .waitStopped, .existenceCheck present] ++
      (if present then [.deleteInstance] else [])
  else []

theorem map_congr_fun {α β : Type} (f g : α → β) (l : List α)
    (h : ∀ a, f a = g a) : l.map f = l.map g := by
  induction l with
  | nil => rfl
  | cons a t ih => simp [h a, ih]

theorem mem_of_mem_takeWhile {α : Type} (p : α → Bool) :
    ∀ (l : List α) (a : α), a ∈ l.takeWhile p → a ∈ l := by
  intro l
  induction l with
  | nil => intro a ha; simp at ha
  | cons b t ih =>
    intro a ha
    by_cases hb : p b
    · rw [List.takeWhile_cons_of_pos hb] at ha
      rcases List.mem_cons.mp ha with h1 | h1
      · exact h1 ▸ List.mem_cons_self _ _
      · exact List.mem_cons_of_mem _ (ih a h1)
    · rw [List.takeWhile_cons_of_neg hb] at ha
      simp at ha

theorem mem_of_idx {α : Type} :
    ∀ (l : List α) (i : Nat) (a : α), l[i]? = some a → a ∈ l
  | [], i, a, h => by simp at h
  | b :: t, 0, a, h => by
    simp at h
    simp [h]
  | b :: t, i + 1, a, h => by
    simp at h
    exact List.mem_cons_of_mem _ (mem_of_idx t i a h)

theorem idx_map {α β : Type} (f : α → β) :
    ∀ (l : List α) (i : Nat), (l.map f)[i]? = (l[i]?).map f
  | [], i => by simp
  | b :: t, 0 => by simp
  | b :: t, i + 1 => by simp [idx_map f t i]

theorem flatMap_mem_split {α β : Type} (f : α → List β) :
    ∀ (l : List α) (a : α), a ∈ l → ∃ p q, l.flatMap f = p ++ (f a ++ q) := by
  intro l
  induction l with
  | nil => intro a ha; simp at ha
  | cons b t ih =>
    intro a ha
    rcases List.mem_cons.mp ha with h1 | h1
    · exact ⟨[], t.flatMap f, by simp [h1]⟩
    · obtain ⟨p, q, hpq⟩ := ih a h1
      exact ⟨f b ++ p, q, by simp [hpq]⟩

theorem restartLoop_spec (handleOk startOk : String → Bool) :
    ∀ l : List String,
      (restartLoop handleOk startOk l).1 =
          (l.takeWhile handleOk).map (fun n => Event.startAttempt n (startOk n))
      ∧ ((restartLoop handleOk startOk l).2 = .ok () ↔ l.all handleOk = true) := by
  intro l
  induction l with
  | nil => simp [restartLoop]
  | cons n rest ih =>
    by_cases h : handleOk n
    · simp [restartLoop, h, List.takeWhile_cons_of_pos, ih.1, ih.2]
    · have hf : handleOk n = false := by simpa using h
      simp [restartLoop, hf, List.takeWhile_cons_of_neg]

theorem restartLoop_res_indep (handleOk startOk startOk' : String → Bool) :
    ∀ l : List String,
      (restartLoop handleOk startOk l).2 = (restartLoop handleOk startOk' l).2 := by
  intro l
  induction l with
  | nil => rfl
  | cons n rest ih =>
    by_cases h : handleOk n <;> simp [restartLoop, h, ih]

/-- The cumulative effect on the table of setting power_state=1 for a list of
names, one `UPDATE … WHERE name=?` at a time. -/
def applyFlags (db : DB) (ns : List String) : DB :=
  ns.foldl (fun d n => setPower d n 1) db

theorem applyFlags_idx :
    ∀ (ns : List String) (db : DB) (i : Nat) (r : DBRow),
      db[i]? = some r →
      (applyFlags db ns)[i]? =
        some (if r.name ∈ ns then { r with powerState := 1 } else r) := by
  intro ns
  induction ns with
  | nil =>
    intro db i r h
    simpa [applyFlags] using h
  | cons n t ih =>
    intro db i r h
    by_cases hn : r.name = n
    · have h1 : (setPower db n 1)[i]? = some { r with powerState := 1 } := by
        rw [setPower, idx_map, h]
        simp [hn]
      have h2 := ih (setPower db n 1) i _ h1
      show (applyFlags (setPower db n 1) t)[i]? = _
      rw [h2]
      by_cases hm : ({ r with powerState := 1 } : DBRow).name ∈ t <;>
        simp [hn, hm]
    · have h1 : (setPower db n 1)[i]? = some r := by
        rw [setPower, idx_map, h]
        simp [hn]
      have h2 := ih (setPower db n 1) i r h1
      show (applyFlags (setPower db n 1) t)[i]? = _
      rw [h2]
      by_cases hm : r.name ∈ t <;> simp [hn, hm, List.mem_cons]

theorem shutdownLoop_spec (handleOk running gracefulOk : String → Bool)
    (h : ∀ n, handleOk n = true) :
    ∀ (names : List String) (db : DB),
      (shutdownLoop handleOk running gracefulOk names db).1 =
          applyFlags db (names.filter running)
      ∧ (shutdownLoop handleOk running gracefulOk names db).2.1 =
          (names.filter running).flatMap (fun n =>
            [Event.setFlag n 1, Event.gracefulShutdown n 30 (gracefulOk n),
              Event.forceStop n])
      ∧ (shutdownLoop handleOk running gracefulOk names db).2.2 = .ok () := by
  intro names
  induction names with
  | nil =>
    intro db
    exact ⟨rfl, rfl, rfl⟩
  | cons n rest ih =>
    intro db
    by_cases hr : running n
    · have hdb := (ih (setPower db n 1)).1
      have htr := (ih (setPower db n 1)).2.1
      have hres := (ih (setPower db n 1)).2.2
      refine ⟨?_, ?_, ?_⟩
      · rw [shutdownLoop]
        simp only [h n, if_true, hr]
        rw [hdb, List.filter_cons_of_pos hr]
        rfl
      · rw [shutdownLoop]
        simp only [h n, if_true, hr]
        rw [List.filter_cons_of_pos hr, List.flatMap_cons]
        simp [htr]
      · rw [shutdownLoop]
        simp only [h n, if_true, hr]
        exact hres
    · have hrf : running n = false := by simpa using hr
      have hdb := (ih db).1
      have htr := (ih db).2.1
      have hres := (ih db).2.2
      refine ⟨?_, ?_, ?_⟩
      · rw [shutdownLoop]
        simp only [h n, if_true, hrf, if_false]
        rw [List.filter_cons_of_neg (by simp [hrf])]
        exact hdb
      · rw [shutdownLoop]
        simp only [h n, if_true, hrf, if_false]
        rw [List.filter_cons_of_neg (by simp [hrf])]
        exact htr
      · rw [shutdownLoop]
        simp only [h n, if_true, hrf, if_false]
        exact hres

theorem shutdownLoop_res (handleOk running gracefulOk : String → Bool) :
    ∀ (names : List String) (db : DB),
      ((shutdownLoop handleOk running gracefulOk names db).2.2 = .ok ()
        ↔ names.all handleOk = true) := by
  intro names
  induction names with
  | nil => intro db; simp [shutdownLoop]
  | cons n rest ih =>
    intro db
    by_cases h : handleOk n
    · by_cases hr : running n <;> simp [shutdownLoop, h, hr, ih]
    · have hf : handleOk n = false := by simpa using h
      simp [shutdownLoop, hf]

theorem shutdownLoop_gracefulOk_indep
    (handleOk running gracefulOk gracefulOk' : String → Bool) :
    ∀ (names : List String) (db : DB),
      (shutdownLoop handleOk running gracefulOk names db).1
          = (shutdownLoop handleOk running gracefulOk' names db).1
      ∧ (shutdownLoop handleOk running gracefulOk names db).2.2
          = (shutdownLoop handleOk running gracefulOk' names db).2.2 := by
  intro names
  induction names with
  | nil => intro db; exact ⟨rfl, rfl⟩
  | cons n rest ih =>
    intro db
    by_cases h : handleOk n
    · by_cases hr : running n <;>
        simp [shutdownLoop, h, hr, (ih _).1, (ih _).2]
    · simp [shutdownLoop, h]

/-- C6: restart-all recovery reads the set of names whose power_state flag is
1, clears the flag for every row before any start attempt (the clear event
heads the trace, and the only later events are start attempts), never sets
the flag back (no flag-write event follows, and the final table carries
power_state 0 in every row regardless of individual start outcomes), and
only previously-flagged names are attempted. -/
theorem containersRestart_power_state (handleOk startOk : String → Bool) (db : DB) :
    (∀ r ∈ (containersRestart handleOk startOk db).1, r.powerState = 0)
    ∧ (∃ starts,
        (containersRestart handleOk startOk db).2.1 = .clearAllFlags :: starts
        ∧ ∀ e ∈ starts, ∃ n b, e = Event.startAttempt n b)
    ∧ (∀ n b,
        Event.startAttempt n b ∈ (containersRestart handleOk startOk db).2.1 →
          n ∈ flaggedNames db) := by
  refine ⟨?_, ?_, ?_⟩
  · intro r hr
    have : r ∈ clearAll db := hr
    rw [clearAll, List.mem_map] at this
    obtain ⟨r', _, hr'⟩ := this
    rw [← hr']
  · refine ⟨(restartLoop handleOk startOk (flaggedNames db)).1, rfl, ?_⟩
    intro e he
    rw [(restartLoop_spec handleOk startOk (flaggedNames db)).1] at he
    rw [List.mem_map] at he
    obtain ⟨n, _, hn⟩ := he
    exact ⟨n, startOk n, hn.symm⟩
  · intro n b hmem
    have : Event.startAttempt n b ∈
        .clearAllFlags :: (restartLoop handleOk startOk (flaggedNames db)).1 := hmem
    rcases List.mem_cons.mp this with h1 | h1
    · exact absurd h1 (by simp)
    · rw [(restartLoop_spec handleOk startOk (flaggedNames db)).1] at h1
      rw [List.mem_map] at h1
      obtain ⟨m, hm, hmn⟩ := h1
      have : m = n := by
        have := congrArg (fun e => match e with
          | Event.startAttempt x _ => x
          | _ => "") hmn
        simpa using this
      exact this ▸ mem_of_mem_takeWhile handleOk _ m hm

/-- Table used by the C3 counterexample: two containers previously running. -/
def dbC3 : DB := [⟨1, "a", cTypeRegular, 1⟩, ⟨2, "b", cTypeRegular, 1⟩]

/-- C3 counterexample: with two previously-running containers a and b, a
handle failure on a makes restart-all return that error at once: b is still
flagged but no start attempt for it (or for anything) appears in the trace —
the batch does not continue with the remaining instances. -/
theorem containersRestart_abort_counterexample :
    (containersRestart (fun n => !(n == "a")) (fun _ => true) dbC3).2.2
        = .error (.handleErr "a")
    ∧ "b" ∈ flaggedNames dbC3
    ∧ (containersRestart (fun n => !(n == "a")) (fun _ => true) dbC3).2.1
        = [.clearAllFlags] := by
  refine ⟨rfl, by decide, rfl⟩

/-- C3 amended: a failure to construct an instance's handle during restart-all
or mass shutdown aborts the batch — the call succeeds exactly when every
handle in the batch constructs — while failures of the per-instance start,
graceful-shutdown or stop calls are swallowed: they affect neither the
returned result nor the final table. -/
theorem batch_failure_handling_amended
    (handleOk startOk startOk' running gracefulOk gracefulOk' : String → Bool)
    (db : DB) :
    ((containersRestart handleOk startOk db).2.2 = .ok ()
        ↔ (flaggedNames db).all handleOk = true)
    ∧ (containersRestart handleOk startOk db).1
        = (containersRestart handleOk startOk' db).1
    ∧ (containersRestart handleOk startOk db).2.2
        = (containersRestart handleOk startOk' db).2.2
    ∧ ((containersShutdown handleOk running gracefulOk db).2.2 = .ok ()
        ↔ (regularNames db).all handleOk = true)
    ∧ (containersShutdown handleOk running gracefulOk db).1
        = (containersShutdown handleOk running gracefulOk' db).1
    ∧ (containersShutdown handleOk running gracefulOk db).2.2
        = (containersShutdown handleOk running gracefulOk' db).2.2 := by
  refine ⟨?_, rfl, ?_, ?_, ?_, ?_⟩
  · exact (restartLoop_spec handleOk startOk (flaggedNames db)).2
  · exact restartLoop_res_indep handleOk startOk startOk' (flaggedNames db)
  · exact shutdownLoop_res handleOk running gracefulOk (regularNames db) db
  · exact (shutdownLoop_gracefulOk_indep handleOk running gracefulOk gracefulOk'
      (regularNames db) db).1
  · exact (shutdownLoop_gracefulOk_indep handleOk running gracefulOk gracefulOk'
      (regularNames db) db).2

/-- C5: the ephemeral watcher first blocks until the container is stopped,
briefly waits for a restart, blocks until stopped again, then re-checks the
metadata store; it deletes the instance exactly when the handle was obtained
and the row is still present — an instance already deleted by another path is
never deleted again. -/
theorem containerWatchEphemeral_spec (handleOk present : Bool) :
    (WatchEvent.deleteInstance ∈ containerWatchEphemeral handleOk present
        ↔ (handleOk = true ∧ present = true))
    ∧ (containerWatchEphemeral handleOk present = []
        ∨ ∃ tail,
            containerWatchEphemeral handleOk present =
              [.waitStopped, .waitRunningBrief, .waitStopped,
                .existenceCheck present] ++ tail
            ∧ (tail = [] ∨ tail = [.deleteInstance])) := by
  cases handleOk with
  | false =>
    exact ⟨by simp [containerWatchEphemeral], Or.inl rfl⟩
  | true =>
    cases present with
    | false =>
      exact ⟨by simp [containerWatchEphemeral],
        Or.inr ⟨[], by simp [containerWatchEphemeral], Or.inl rfl⟩⟩
    | true =>
      exact ⟨by simp [containerWatchEphemeral],
        Or.inr ⟨[.deleteInstance], by simp [containerWatchEphemeral], Or.inr rfl⟩⟩

/-- Table used by the C7 counterexample and witness: one running container. -/
def dbC7 : DB := [⟨1, "a", cTypeRegular, 0⟩]

/-- C7 counterexample: the container stops within the graceful deadline
(the graceful-shutdown event records success), yet a forced stop is still
issued — the stop call is unconditional, not guarded by a running check. -/
theorem containersShutdown_forceStop_counterexample :
    Event.gracefulShutdown "a" 30 true
        ∈ (containersShutdown (fun _ => true) (fun _ => true) (fun _ => true)
            dbC7).2.1
    ∧ Event.forceStop "a"
        ∈ (containersShutdown (fun _ => true) (fun _ => true) (fun _ => true)
            dbC7).2.1 := by
  decide

/-- C7 amended: for every running instance processed during mass shutdown, a
graceful shutdown with a 30-second deadline is requested, and a forced stop
is then issued unconditionally, whether or not the instance stopped within
the deadline. -/
theorem containersShutdown_forceStop_amended
    (handleOk running gracefulOk : String → Bool) (db : DB)
    (h : ∀ n, handleOk n = true) :
    ∀ n, n ∈ regularNames db → running n = true →
      ∃ p q,
        (containersShutdown handleOk running gracefulOk db).2.1 =
          p ++ ([Event.setFlag n 1, Event.gracefulShutdown n 30 (gracefulOk n),
                  Event.forceStop n] ++ q) := by
  intro n hn hr
  have htr := (shutdownLoop_spec handleOk running gracefulOk h
    (regularNames db) db).2.1
  have hmem : n ∈ (regularNames db).filter running :=
    List.mem_filter.mpr ⟨hn, hr⟩
  obtain ⟨p, q, hpq⟩ := flatMap_mem_split _ _ n hmem
  exact ⟨p, q, by rw [containersShutdown, htr, hpq]⟩

/-- Witness for the amended C7 at a concrete table: container a is running,
stops gracefully, and its trace block still ends in a forced stop. -/
theorem containersShutdown_forceStop_amended_witness :
    ∃ p q,
      (containersShutdown (fun _ => true) (fun _ => true) (fun _ => true)
          dbC7).2.1 =
        p ++ ([Event.setFlag "a" 1, Event.gracefulShutdown "a" 30 true,
                Event.forceStop "a"] ++ q) :=
  containersShutdown_forceStop_amended (fun _ => true) (fun _ => true)
    (fun _ => true) dbC7 (fun _ => rfl) "a" (by decide) rfl

/-- Table used by the C8 evaluation: two running containers. -/
def dbC8 : DB := [⟨1, "a", cTypeRegular, 0⟩, ⟨2, "b", cTypeRegular, 0⟩]

/-- C8 (code bug evaluation): with two running containers, both exceeding the
graceful deadline, the shutdown trace is fully sequential — a's entire
shutdown attempt (flag write, graceful wait, forced stop) completes before
b's begins, because `wg.Wait()` sits inside the per-container loop and so
joins the freshly spawned goroutine before the next iteration.  The claimed
parallel fan-out with a single join after the loop does not happen. -/
theorem containersShutdown_sequentialized :
    (containersShutdown (fun _ => true) (fun _ => true) (fun _ => false)
        dbC8).2.1
      = [.setFlag "a" 1, .gracefulShutdown "a" 30 false, .forceStop "a",
          .setFlag "b" 1, .gracefulShutdown "b" 30 false, .forceStop "b"] := by
  rfl

/-- C10: during mass shutdown, a row whose container is not observed running
is returned unchanged at its position and no event mentions it; a running
regular container's row has power_state 1 persisted, and the flag write sits
immediately before its graceful-shutdown request in the trace. -/
theorem containersShutdown_frame
    (handleOk running gracefulOk : String → Bool) (db : DB)
    (h : ∀ n, handleOk n = true) :
    (∀ (i : Nat) (r : DBRow), db[i]? = some r → running r.name = false →
        (containersShutdown handleOk running gracefulOk db).1[i]? = some r)
    ∧ (∀ (i : Nat) (r : DBRow), db[i]? = some r → running r.name = true →
        r.typ = cTypeRegular →
        (containersShutdown handleOk running gracefulOk db).1[i]?
          = some { r with powerState := 1 })
    ∧ (∀ n : String, running n = true → n ∈ regularNames db →
        ∃ p q,
          (containersShutdown handleOk running gracefulOk db).2.1 =
            p ++ ([Event.setFlag n 1, Event.gracefulShutdown n 30 (gracefulOk n),
                    Event.forceStop n] ++ q))
    ∧ (∀ (n : String) (v : Nat) (b : Bool), running n = false →
        Event.setFlag n v ∉ (containersShutdown handleOk running gracefulOk db).2.1
        ∧ Event.gracefulShutdown n 30 b
            ∉ (containersShutdown handleOk running gracefulOk db).2.1
        ∧ Event.forceStop n
            ∉ (containersShutdown handleOk running gracefulOk db).2.1) := by
  have hdb := (shutdownLoop_spec handleOk running gracefulOk h
    (regularNames db) db).1
  have htr := (shutdownLoop_spec handleOk running gracefulOk h
    (regularNames db) db).2.1
  refine ⟨?_, ?_, ?_, ?_⟩
  · intro i r hi hr
    rw [containersShutdown, hdb]
    rw [applyFlags_idx ((regularNames db).filter running) db i r hi]
    have hno : r.name ∉ (regularNames db).filter running := by
      intro hc
      have hrt := (List.mem_filter.mp hc).2
      rw [hr] at hrt
      exact absurd hrt (by simp)
    simp [hno]
  · intro i r hi hr ht
    rw [containersShutdown, hdb]
    rw [applyFlags_idx ((regularNames db).filter running) db i r hi]
    have hrdb : r ∈ db := mem_of_idx db i r hi
    have hyes : r.name ∈ (regularNames db).filter running := by
      refine List.mem_filter.mpr ⟨?_, hr⟩
      rw [regularNames, List.mem_map]
      exact ⟨r, List.mem_filter.mpr ⟨hrdb, by simp [ht]⟩, rfl⟩
    simp [hyes]
  · intro n hr hn
    have hmem : n ∈ (regularNames db).filter running :=
      List.mem_filter.mpr ⟨hn, hr⟩
    obtain ⟨p, q, hpq⟩ := flatMap_mem_split _ _ n hmem
    exact ⟨p, q, by rw [containersShutdown, htr, hpq]⟩
  · intro n v b hr
    rw [containersShutdown, htr]
    have hstop : ∀ m : String, m ∈ (regularNames db).filter running →
        n = m → False := by
      intro m hm he
      have hrt := (List.mem_filter.mp hm).2
      rw [← he, hr] at hrt
      exact absurd hrt (by simp)
    refine ⟨?_, ?_, ?_⟩
    · intro hc
      rw [List.mem_flatMap] at hc
      obtain ⟨m, hm, hblk⟩ := hc
      simp only [List.mem_cons, List.not_mem_nil, or_false] at hblk
      rcases hblk with h1 | h1 | h1
      · exact hstop m hm (Event.setFlag.inj h1).1
      · exact absurd h1 (by simp)
      · exact absurd h1 (by simp)
    · intro hc
      rw [List.mem_flatMap] at hc
      obtain ⟨m, hm, hblk⟩ := hc
      simp only [List.mem_cons, List.not_mem_nil, or_false] at hblk
      rcases hblk with h1 | h1 | h1
      · exact absurd h1 (by simp)
      · exact hstop m hm (Event.gracefulShutdown.inj h1).1
      · exact absurd h1 (by simp)
    · intro hc
      rw [List.mem_flatMap] at hc
      obtain ⟨m, hm, hblk⟩ := hc
      simp only [List.mem_cons, List.not_mem_nil, or_false] at hblk
      rcases hblk with h1 | h1 | h1
      · exact absurd h1 (by simp)
      · exact absurd h1 (by simp)
      · exact hstop m hm (Event.forceStop.inj h1)

/-- Table used by the C10 witness: a is running, b is stopped. -/
def dbC10 : DB := [⟨1, "a", cTypeRegular, 0⟩, ⟨2, "b", cTypeRegular, 5⟩]

/-- Witness for C10 at a concrete table: the stopped container's row is
untouched (power_state still 5) and no stop is issued for it, while the
running container's row ends with power_state 1. -/
theorem containersShutdown_frame_witness :
    (containersShutdown (fun _ => true) (fun n => n == "a") (fun _ => true)
        dbC10).1[1]? = some ⟨2, "b", cTypeRegular, 5⟩
    ∧ (containersShutdown (fun _ => true) (fun n => n == "a") (fun _ => true)
        dbC10).1[0]? = some ⟨1, "a", cTypeRegular, 1⟩
    ∧ Event.forceStop "b"
        ∉ (containersShutdown (fun _ => true) (fun n => n == "a")
            (fun _ => true) dbC10).2.1 :=
  ⟨(containersShutdown_frame (fun _ => true) (fun n => n == "a")
      (fun _ => true) dbC10 (fun _ => rfl)).1 1 ⟨2, "b", cTypeRegular, 5⟩
      (by decide) (by decide),
    (containersShutdown_frame (fun _ => true) (fun n => n == "a")
      (fun _ => true) dbC10 (fun _ => rfl)).2.1 0 ⟨1, "a", cTypeRegular, 0⟩
      (by decide) (by decide) rfl,
    ((containersShutdown_frame (fun _ => true) (fun n => n == "a")
      (fun _ => true) dbC10 (fun _ => rfl)).2.2.2 "b" 1 true (by decide)).2.2⟩

/-- The state `containerDeleteSnapshots` acts on: the containers table and
the names of the snapshot directories present on disk. -/
structure SnapshotFS where
  db : DB
  storage : List String
deriving DecidableEq

/-- The `SELECT name, id FROM containers WHERE type=? AND SUBSTR(name,1,?)=?`
query: snapshot rows whose name starts with `<cname><delimiter>`. -/
def matchedSnapshots (cname : String) (db : DB) : List (String × Nat) :=
  let pfx := cname ++ SnapshotDelimiter
  (db.filter (fun r => r.typ == cTypeSnapshot
      && r.name.take pfx.length == pfx)).map (fun r => (r.name, r.id))

/-- First loop of `containerDeleteSnapshots`: for each matched snapshot, the
btrfs fast path (when the backing filesystem is btrfs) and then the generic
recursive delete remove the snapshot's directory.  `os.RemoveAll` on an
absent directory is a no-op, so removal is modelled as a filter. -/
def storagePhase (backingFs : String) :
    List (String × Nat) → List String → List String × List Event
  | [], st => (st, [])
  | (sname, _) :: rest, st =>
    let evs := (if backingFs == "btrfs" then [Event.btrfsDelete sname] else [])
        ++ [Event.removeAll sname]
    let res := storagePhase backingFs rest (st.filter (fun x => !(x == sname)))
    (res.1, evs ++ res.2)

/-- Second loop of `containerDeleteSnapshots`: delete each collected row id,
`DELETE FROM containers WHERE id=?`. -/
def rowPhase : List Nat → DB → DB × List Event
  | [], db => (db, [])
  | i :: rest, db =>
    let res := rowPhase rest (db.filter (fun r => !(r.id == i)))
    (res.1, Event.rowDelete i :: res.2)

/-- `containerDeleteSnapshots`: query the matching snapshot rows, remove all
their backing storage, then delete all their metadata rows, in that order. -/
def containerDeleteSnapshots (backingFs cname : String) (s : SnapshotFS) :
    SnapshotFS × List Event :=
  let snaps := matchedSnapshots cname s.db
  let st := storagePhase backingFs snaps s.storage
  let dbres := rowPhase (snaps.map Prod.snd) s.db
  (⟨dbres.1, st.1⟩, st.2 ++ dbres.2)

theorem storagePhase_trace (backingFs : String) :
    ∀ (snaps : List (String × Nat)) (st : List String),
      (storagePhase backingFs snaps st).2 =
        snaps.flatMap (fun p =>
          (if backingFs == "btrfs" then [Event.btrfsDelete p.1] else [])
            ++ [Event.removeAll p.1]) := by
  intro snaps
  induction snaps with
  | nil => intro st; rfl
  | cons p rest ih =>
    intro st
    obtain ⟨sname, i⟩ := p
    rw [List.flatMap_cons, storagePhase]
    simp [ih]

theorem storagePhase_storage (backingFs : String) :
    ∀ (snaps : List (String × Nat)) (st : List String) (x : String),
      (x ∈ (storagePhase backingFs snaps st).1
        ↔ x ∈ st ∧ x ∉ snaps.map Prod.fst) := by
  intro snaps
  induction snaps with
  | nil => intro st x; simp [storagePhase]
  | cons p rest ih =>
    intro st x
    obtain ⟨sname, i⟩ := p
    rw [storagePhase]
    rw [ih (st.filter (fun y => !(y == sname))) x]
    simp only [List.mem_filter, List.map_cons, List.mem_cons]
    constructor
    · rintro ⟨⟨hst, hne⟩, hnin⟩
      refine ⟨hst, ?_⟩
      rintro (h1 | h1)
      · rw [h1] at hne
        simp at hne
      · exact hnin h1
    · rintro ⟨hst, hnin⟩
      refine ⟨⟨hst, ?_⟩, fun h1 => hnin (Or.inr h1)⟩
      simp only [Bool.not_eq_eq_eq_not, Bool.not_true, beq_eq_false_iff_ne]
      intro he
      exact hnin (Or.inl he)

theorem rowPhase_db :
    ∀ (ids : List Nat) (db : DB) (r : DBRow),
      (r ∈ (rowPhase ids db).1 ↔ r ∈ db ∧ r.id ∉ ids) := by
  intro ids
  induction ids with
  | nil => intro db r; simp [rowPhase]
  | cons i rest ih =>
    intro db r
    rw [rowPhase]
    rw [ih (db.filter (fun q => !(q.id == i))) r]
    simp only [List.mem_filter, List.mem_cons]
    constructor
    · rintro ⟨⟨hdb, hne⟩, hnin⟩
      refine ⟨hdb, ?_⟩
      rintro (h1 | h1)
      · rw [h1] at hne
        simp at hne
      · exact hnin h1
    · rintro ⟨hdb, hnin⟩
      refine ⟨⟨hdb, ?_⟩, fun h1 => hnin (Or.inr h1)⟩
      simp only [Bool.not_eq_eq_eq_not, Bool.not_true, beq_eq_false_iff_ne]
      intro he
      exact hnin (Or.inl he)

theorem rowPhase_trace :
    ∀ (ids : List Nat) (db : DB),
      (rowPhase ids db).2 = ids.map Event.rowDelete := by
  intro ids
  induction ids with
  | nil => intro db; rfl
  | cons i rest ih =>
    intro db
    rw [rowPhase, List.map_cons]
    simp [ih]

theorem idx_of_mem {α : Type} :
    ∀ (l : List α) (a : α), a ∈ l → ∃ n, n < l.length ∧ l[n]? = some a := by
  intro l
  induction l with
  | nil => intro a ha; simp at ha
  | cons b t ih =>
    intro a ha
    rcases List.mem_cons.mp ha with h1 | h1
    · exact ⟨0, by simp, by simp [h1]⟩
    · obtain ⟨n, hn, hg⟩ := ih a h1
      exact ⟨n + 1, by simpa using hn, by simpa using hg⟩

theorem idx_append_left {α : Type} :
    ∀ (l1 l2 : List α) (n : Nat), n < l1.length → (l1 ++ l2)[n]? = l1[n]?
  | [], _, n, h => by simp at h
  | a :: t, l2, 0, _ => by simp
  | a :: t, l2, n + 1, h => by
    simpa using idx_append_left t l2 n (by simpa using h)

theorem idx_append_right {α : Type} :
    ∀ (l1 l2 : List α) (n : Nat), (l1 ++ l2)[l1.length + n]? = l2[n]?
  | [], l2, n => by simp
  | a :: t, l2, n => by
    simpa [Nat.succ_add] using idx_append_right t l2 n

theorem matchedSnapshots_mem (cname : String) (db : DB) (sname : String) (i : Nat) :
    (sname, i) ∈ matchedSnapshots cname db
    ↔ ∃ r ∈ db, r.typ = cTypeSnapshot
        ∧ r.name.take (cname ++ SnapshotDelimiter).length = cname ++ SnapshotDelimiter
        ∧ r.name = sname ∧ r.id = i := by
  simp only [matchedSnapshots, List.mem_map, List.mem_filter, Bool.and_eq_true,
    beq_iff_eq, Prod.mk.injEq]
  constructor
  · rintro ⟨r, ⟨hr, ht, hp⟩, hn, hi⟩
    exact ⟨r, hr, ht, hp, hn, hi⟩
  · rintro ⟨r, hr, ht, hp, hn, hi⟩
    exact ⟨r, ⟨hr, ht, hp⟩, hn, hi⟩

theorem removeAll_mem_storagePhase (backingFs : String)
    (snaps : List (String × Nat)) (st : List String) (sname : String) :
    Event.removeAll sname ∈ (storagePhase backingFs snaps st).2
      ↔ sname ∈ snaps.map Prod.fst := by
  rw [storagePhase_trace, List.mem_flatMap]
  constructor
  · rintro ⟨p, hp, hmem⟩
    rw [List.mem_append] at hmem
    rcases hmem with h1 | h1
    · by_cases hb : (backingFs == "btrfs") = true <;> simp [hb] at h1
    · simp at h1
      rw [h1]
      exact List.mem_map.mpr ⟨p, hp, rfl⟩
  · intro hmem
    obtain ⟨p, hp, hpe⟩ := List.mem_map.mp hmem
    refine ⟨p, hp, ?_⟩
    rw [List.mem_append]
    right
    simp [hpe]

/-- C4: snapshot cleanup attempts removal of the backing storage of exactly
the snapshots whose name starts with the instance name and the delimiter, and
every storage-removal event precedes the metadata-row delete of the same
snapshot in the trace.  A crash between the two phases leaves the
storage-absent, row-present state, and running cleanup again from that state
deletes every matching metadata row, reaching the same final state as an
uninterrupted run. -/
theorem containerDeleteSnapshots_order_retry (backingFs cname : String)
    (s : SnapshotFS) :
    (∀ (sname : String) (i : Nat),
        (sname, i) ∈ matchedSnapshots cname s.db
        ↔ ∃ r ∈ s.db, r.typ = cTypeSnapshot
            ∧ r.name.take (cname ++ SnapshotDelimiter).length
                = cname ++ SnapshotDelimiter
            ∧ r.name = sname ∧ r.id = i)
    ∧ (∀ sname : String,
        Event.removeAll sname ∈ (containerDeleteSnapshots backingFs cname s).2
        ↔ sname ∈ (matchedSnapshots cname s.db).map Prod.fst)
    ∧ (∀ (sname : String) (i : Nat),
        (sname, i) ∈ matchedSnapshots cname s.db →
        ∃ j k : Nat, j < k
          ∧ (containerDeleteSnapshots backingFs cname s).2[j]?
              = some (Event.removeAll sname)
          ∧ (containerDeleteSnapshots backingFs cname s).2[k]?
              = some (Event.rowDelete i))
    ∧ (∀ (sname : String) (i : Nat),
        (sname, i) ∈ matchedSnapshots cname s.db →
        sname ∉ (storagePhase backingFs (matchedSnapshots cname s.db) s.storage).1
        ∧ ∃ r ∈ s.db, r.name = sname ∧ r.id = i)
    ∧ (∀ r ∈ (containerDeleteSnapshots backingFs cname
          ⟨s.db, (storagePhase backingFs (matchedSnapshots cname s.db)
              s.storage).1⟩).1.db,
        ¬(r.typ = cTypeSnapshot
          ∧ r.name.take (cname ++ SnapshotDelimiter).length
              = cname ++ SnapshotDelimiter))
    ∧ (containerDeleteSnapshots backingFs cname
          ⟨s.db, (storagePhase backingFs (matchedSnapshots cname s.db)
              s.storage).1⟩).1.db
        = (containerDeleteSnapshots backingFs cname s).1.db
    ∧ (∀ x : String,
        x ∈ (containerDeleteSnapshots backingFs cname
            ⟨s.db, (storagePhase backingFs (matchedSnapshots cname s.db)
                s.storage).1⟩).1.storage
        ↔ x ∈ (containerDeleteSnapshots backingFs cname s).1.storage) := by
  have hout2 : (containerDeleteSnapshots backingFs cname s).2 =
      (storagePhase backingFs (matchedSnapshots cname s.db) s.storage).2 ++
        (rowPhase ((matchedSnapshots cname s.db).map Prod.snd) s.db).2 := rfl
  refine ⟨fun sname i => matchedSnapshots_mem cname s.db sname i, ?_, ?_, ?_, ?_, rfl, ?_⟩
  · intro sname
    rw [hout2, List.mem_append, rowPhase_trace]
    rw [removeAll_mem_storagePhase]
    constructor
    · rintro (h1 | h1)
      · exact h1
      · rw [List.mem_map] at h1
        obtain ⟨_, _, he⟩ := h1
        exact absurd he (by simp)
    · exact Or.inl
  · intro sname i hmem
    have h1 : Event.removeAll sname ∈
        (storagePhase backingFs (matchedSnapshots cname s.db) s.storage).2 :=
      (removeAll_mem_storagePhase backingFs _ s.storage sname).mpr
        (List.mem_map.mpr ⟨(sname, i), hmem, rfl⟩)
    obtain ⟨j, hj, hjg⟩ := idx_of_mem _ _ h1
    have h2 : Event.rowDelete i ∈
        (rowPhase ((matchedSnapshots cname s.db).map Prod.snd) s.db).2 := by
      rw [rowPhase_trace]
      exact List.mem_map.mpr ⟨i, List.mem_map.mpr ⟨(sname, i), hmem, rfl⟩, rfl⟩
    obtain ⟨k2, _, hkg⟩ := idx_of_mem _ _ h2
    refine ⟨j,
      (storagePhase backingFs (matchedSnapshots cname s.db) s.storage).2.length + k2,
      Nat.lt_of_lt_of_le hj (Nat.le_add_right _ _), ?_, ?_⟩
    · rw [hout2, idx_append_left _ _ j hj]
      exact hjg
    · rw [hout2, idx_append_right]
      exact hkg
  · intro sname i hmem
    constructor
    · intro hc
      have := (storagePhase_storage backingFs _ s.storage sname).mp hc
      exact this.2 (List.mem_map.mpr ⟨(sname, i), hmem, rfl⟩)
    · obtain ⟨r, hr, _, _, hn, hi⟩ := (matchedSnapshots_mem cname s.db sname i).mp hmem
      exact ⟨r, hr, hn, hi⟩
  · intro r hrr
    have hrow : r ∈ (rowPhase ((matchedSnapshots cname s.db).map Prod.snd) s.db).1 := hrr
    have hmem := (rowPhase_db _ s.db r).mp hrow
    rintro ⟨ht, hp⟩
    exact hmem.2 (List.mem_map.mpr
      ⟨(r.name, r.id),
        (matchedSnapshots_mem cname s.db r.name r.id).mpr ⟨r, hmem.1, ht, hp, rfl, rfl⟩,
        rfl⟩)
  · intro x
    have hretry : x ∈ (containerDeleteSnapshots backingFs cname
        ⟨s.db, (storagePhase backingFs (matchedSnapshots cname s.db)
            s.storage).1⟩).1.storage
        ↔ (x ∈ (storagePhase backingFs (matchedSnapshots cname s.db) s.storage).1
            ∧ x ∉ (matchedSnapshots cname s.db).map Prod.fst) :=
      storagePhase_storage backingFs _ _ x
    have hfirst : x ∈ (containerDeleteSnapshots backingFs cname s).1.storage
        ↔ (x ∈ s.storage ∧ x ∉ (matchedSnapshots cname s.db).map Prod.fst) :=
      storagePhase_storage backingFs _ _ x
    rw [hretry, hfirst, storagePhase_storage backingFs _ s.storage x]
    tauto

/-- State used by the C4 witness: one matching snapshot on btrfs, one
unrelated regular container. -/
def fsC4 : SnapshotFS :=
  ⟨[⟨10, "c/snap0", cTypeSnapshot, 0⟩, ⟨11, "other", cTypeRegular, 0⟩],
    ["c/snap0"]⟩

/-- Witness for C4 at a concrete state: the matching snapshot's storage
removal precedes its row delete, the crash state has lost the storage but
kept the row reachable for a retry, and the retry's final table carries no
matching row. -/
theorem containerDeleteSnapshots_order_retry_witness :
    (∃ j k : Nat, j < k
      ∧ (containerDeleteSnapshots "btrfs" "c" fsC4).2[j]?
          = some (Event.removeAll "c/snap0")
      ∧ (containerDeleteSnapshots "btrfs" "c" fsC4).2[k]?
          = some (Event.rowDelete 10))
    ∧ "c/snap0" ∉ (storagePhase "btrfs" (matchedSnapshots "c" fsC4.db)
        fsC4.storage).1 :=
  ⟨(containerDeleteSnapshots_order_retry "btrfs" "c" fsC4).2.2.1 "c/snap0" 10
      (by decide),
    ((containerDeleteSnapshots_order_retry "btrfs" "c" fsC4).2.2.2.1 "c/snap0" 10
      (by decide)).1⟩

/-- Modelled from the spec: of the exec session only the `execWs` struct is
in the provided sources (its per-channel connection map `conns`, the
`allConnected` and `controlConnected` barrier channels and the per-channel
secrets `fds`); the bodies of its connect/relay methods are not.  Per spec
§4.1 the session records each connecting transport under its logical channel
index and a barrier releases the relay only once every required channel has
connected.  Events of one session: a channel connects, the barrier releases,
a byte is relayed on a channel. -/
inductive WsEvent where
  | connect (i : Nat)
  | barrierRelease : WsEvent
  | relay (ch : Nat) (byte : Nat)
deriving DecidableEq

/-- Session state: which of the required channels have connected, and whether
the relay barrier has been released. -/
structure WsState where
  connected : List Bool
  released : Bool
deriving DecidableEq

/-- Fresh session with k required channels, none connected. -/
def wsInit (k : Nat) : WsState := ⟨List.replicate k false, false⟩

/-- Modelled from the spec: one step of the session.  A connect records the
channel under its index; the barrier releases only when every required
channel is connected; a relay step is possible only once the barrier has
released. -/
def wsStep (s : WsState) (e : WsEvent) : Option WsState :=
  match e with
  | .connect i =>
    if i < s.connected.length then
      some { s with connected := s.connected.set i true }
    else none
  | .barrierRelease =>
    if s.connected.all (fun b => b) then some { s with released := true }
    else none
  | .relay _ _ => if s.released then some s else none

/-- Run a session history from a state; `none` when some step was not
possible. -/
def wsRunFrom (s : WsState) : List WsEvent → Option WsState
  | [] => some s
  | e :: rest =>
    match wsStep s e with
    | none => none
    | some s1 => wsRunFrom s1 rest

/-- A trace is a valid history of a session with k required channels. -/
abbrev wsValid (k : Nat) (tr : List WsEvent) : Prop :=
  (wsRunFrom (wsInit k) tr).isSome = true

theorem idx_set_self {α : Type} :
    ∀ (l : List α) (i : Nat) (a : α), i < l.length → (l.set i a)[i]? = some a
  | [], i, _, h => by simp at h
  | b :: t, 0, a, _ => by simp
  | b :: t, i + 1, a, h => by
    simpa using idx_set_self t i a (by simpa using h)

theorem idx_set_ne {α : Type} :
    ∀ (l : List α) (i j : Nat) (a : α), i ≠ j → (l.set i a)[j]? = l[j]?
  | [], _, _, _, _ => by simp
  | b :: t, 0, 0, a, h => absurd rfl h
  | b :: t, 0, j + 1, a, _ => by simp
  | b :: t, i + 1, 0, a, _ => by simp
  | b :: t, i + 1, j + 1, a, h => by
    simpa using idx_set_ne t i j a (fun he => h (by rw [he]))

theorem all_idx_true :
    ∀ (l : List Bool), l.all (fun b => b) = true →
      ∀ ch : Nat, ch < l.length → l[ch]? = some true
  | [], _, ch, h => by simp at h
  | b :: t, hall, 0, _ => by
    simp only [List.all_cons, Bool.and_eq_true] at hall
    simp [hall.1]
  | b :: t, hall, ch + 1, h => by
    simp only [List.all_cons, Bool.and_eq_true] at hall
    simpa using all_idx_true t hall.2 ch (by simpa using h)

theorem replicate_false_idx :
    ∀ (k ch : Nat), (List.replicate k false)[ch]? = some true → False
  | 0, ch, h => by simp at h
  | k + 1, 0, h => by simp [List.replicate] at h
  | k + 1, ch + 1, h => by
    rw [List.replicate] at h
    simp only [List.getElem?_cons_succ] at h
    exact replicate_false_idx k ch h

theorem wsRunFrom_inv :
    ∀ (tr : List WsEvent) (s s' : WsState), wsRunFrom s tr = some s' →
      s'.connected.length = s.connected.length
      ∧ (∀ ch : Nat, s.connected[ch]? = some true →
          s'.connected[ch]? = some true)
      ∧ (∀ ch : Nat, s'.connected[ch]? = some true →
          s.connected[ch]? = some true ∨ WsEvent.connect ch ∈ tr)
      ∧ (s'.released = true → s.released = true
          ∨ ∀ ch : Nat, ch < s'.connected.length →
              s'.connected[ch]? = some true) := by
  intro tr
  induction tr with
  | nil =>
    intro s s' h
    rw [wsRunFrom] at h
    cases h
    exact ⟨rfl, fun _ h => h, fun _ h => Or.inl h, fun h => Or.inl h⟩
  | cons e rest ih =>
    intro s s' h
    rw [wsRunFrom] at h
    cases e with
    | connect i =>
      rw [wsStep] at h
      by_cases hi : i < s.connected.length
      · rw [if_pos hi] at h
        obtain ⟨hlen, hmono, hsrc, hrel⟩ :=
          ih { s with connected := s.connected.set i true } s' h
        rw [List.length_set] at hlen
        refine ⟨hlen, ?_, ?_, ?_⟩
        · intro ch hch
          refine hmono ch ?_
          by_cases he : i = ch
          · rw [← he] at hch ⊢
            exact idx_set_self s.connected i true hi
          · rw [idx_set_ne s.connected i ch true he]
            exact hch
        · intro ch hch
          rcases hsrc ch hch with h1 | h1
          · by_cases he : i = ch
            · exact Or.inr (List.mem_cons.mpr (Or.inl (by rw [he])))
            · rw [idx_set_ne s.connected i ch true he] at h1
              exact Or.inl h1
          · exact Or.inr (List.mem_cons_of_mem _ h1)
        · intro hr
          rcases hrel hr with h1 | h1
          · exact Or.inl h1
          · exact Or.inr h1
      · rw [if_neg hi] at h
        cases h
    | barrierRelease =>
      rw [wsStep] at h
      by_cases hall : s.connected.all (fun b => b) = true
      · rw [if_pos hall] at h
        obtain ⟨hlen, hmono, hsrc, _⟩ :=
          ih { s with released := true } s' h
        refine ⟨hlen, hmono, ?_, ?_⟩
        · intro ch hch
          rcases hsrc ch hch with h1 | h1
          · exact Or.inl h1
          · exact Or.inr (List.mem_cons_of_mem _ h1)
        · intro _
          refine Or.inr ?_
          intro ch hch
          rw [hlen] at hch
          exact hmono ch (all_idx_true s.connected hall ch hch)
      · rw [if_neg hall] at h
        cases h
    | relay ch0 b0 =>
      rw [wsStep] at h
      by_cases hr : s.released = true
      · rw [if_pos hr] at h
        obtain ⟨hlen, hmono, hsrc, _⟩ := ih s s' h
        refine ⟨hlen, hmono, ?_, fun _ => Or.inl hr⟩
        intro ch hch
        rcases hsrc ch hch with h1 | h1
        · exact Or.inl h1
        · exact Or.inr (List.mem_cons_of_mem _ h1)
      · rw [if_neg hr] at h
        cases h

theorem wsRunFrom_append :
    ∀ (l1 : List WsEvent) (s : WsState) (l2 : List WsEvent),
      wsRunFrom s (l1 ++ l2) =
        (wsRunFrom s l1).bind (fun s1 => wsRunFrom s1 l2) := by
  intro l1
  induction l1 with
  | nil => intro s l2; rfl
  | cons e t ih =>
    intro s l2
    rw [List.cons_append, wsRunFrom, wsRunFrom]
    cases wsStep s e with
    | none => rfl
    | some s1 => exact ih s1 l2

/-- C9: in every valid session history with k required channels, by the time
a byte is relayed on any channel, every one of the k channels has already
connected — the relay is released only once the connection barrier over all
required channels is satisfied. -/
theorem execWs_barrier (k : Nat) (pre post : List WsEvent) (i b : Nat)
    (hv : wsValid k (pre ++ WsEvent.relay i b :: post)) :
    ∀ ch : Nat, ch < k → WsEvent.connect ch ∈ pre := by
  intro ch hch
  rw [wsValid, wsRunFrom_append] at hv
  cases hpre : wsRunFrom (wsInit k) pre with
  | none => rw [hpre] at hv; simp at hv
  | some s1 =>
    rw [hpre] at hv
    have hrel : s1.released = true := by
      rw [Option.some_bind] at hv
      by_cases hr : s1.released = true
      · exact hr
      · rw [wsRunFrom, wsStep, if_neg hr] at hv
        simp at hv
    obtain ⟨hlen, _, hsrc, hrelinv⟩ := wsRunFrom_inv pre (wsInit k) s1 hpre
    rcases hrelinv hrel with h1 | h1
    · simp [wsInit] at h1
    · have hlen2 : s1.connected.length = k := by
        rw [hlen]
        simp [wsInit]
      have hconn : s1.connected[ch]? = some true := h1 ch (by rw [hlen2]; exact hch)
      rcases hsrc ch hconn with h2 | h2
      · exact absurd h2 (fun hc => replicate_false_idx k ch hc)
      · exact h2

/-- Witness for C9: a concrete valid two-channel session trace whose relay is
preceded by both connects and the barrier. -/
theorem execWs_barrier_witness :
    wsValid 2 ([WsEvent.connect 0, WsEvent.connect 1, WsEvent.barrierRelease]
        ++ WsEvent.relay 0 7 :: [])
    ∧ WsEvent.connect 1
        ∈ [WsEvent.connect 0, WsEvent.connect 1, WsEvent.barrierRelease] :=
  ⟨by decide,
    execWs_barrier 2 [WsEvent.connect 0, WsEvent.connect 1, WsEvent.barrierRelease]
      [] 0 7 (by decide) 1 (by decide)⟩

/-- Table used by the C6 witness. -/
def dbC6 : DB := [⟨1, "a", cTypeRegular, 1⟩, ⟨2, "b", cTypeRegular, 0⟩]

/-- Witness for C6 at a concrete table: the row left by the pass carries
power_state 0, and the one attempted name was indeed previously flagged. -/
theorem containersRestart_power_state_witness :
    (⟨1, "a", cTypeRegular, 0⟩ : DBRow).powerState = 0
    ∧ "a" ∈ flaggedNames dbC6 :=
  ⟨(containersRestart_power_state (fun _ => true) (fun _ => true) dbC6).1
      ⟨1, "a", cTypeRegular, 0⟩ (by decide),
    (containersRestart_power_state (fun _ => true) (fun _ => true) dbC6).2.2
      "a" true (by decide)⟩

/-- Witness for C5 at concrete oracle values: a present instance is deleted,
an already-absent one is not. -/
theorem containerWatchEphemeral_witness :
    WatchEvent.deleteInstance ∈ containerWatchEphemeral true true
    ∧ WatchEvent.deleteInstance ∉ containerWatchEphemeral true false :=
  ⟨(containerWatchEphemeral_spec true true).1.mpr ⟨rfl, rfl⟩,
    fun hc =>
      absurd ((containerWatchEphemeral_spec true false).1.mp hc).2 (by simp)⟩

/-- Witness for the amended C3 at a concrete table: when every handle
constructs, restart-all returns success. -/
theorem batch_failure_handling_amended_witness :
    (containersRestart (fun _ => true) (fun _ => true) dbC3).2.2 = .ok () :=
  (batch_failure_handling_amended (fun _ => true) (fun _ => true) (fun _ => true)
    (fun _ => true) (fun _ => true) (fun _ => true) dbC3).1.mpr (by decide)

end Lxd
